import Mathlib

/-!
Verification of `src/sentry/runner/commands/configoptions.py`: the Options
Automator CLI.  We embed the per-key reconciliation function
`_attempt_update`, the `patch` and `sync` workflows, and the
`configoptions` group callback (path walk plus `can_update` pre-pass)
as executable Lean definitions, and prove the spec's properties about
them.

The options store (`sentry.options`: `get` / `set` / `delete` / `isset` /
`get_last_update_channel` / `can_update` / `filter`) is an external
collaborator of this code; it is modelled from the spec's description of
its interface.  Every store mutation performed by a run is additionally
recorded in an explicit trace so that frame properties ("no deletion ever
happens", "every write stamps the automator channel") are directly
statable.
-/

/-- The update channels of the options store.  The automator CLI always
writes with `UpdateChannel.AUTOMATOR`; the other constructors stand for
the remaining channels (`CLI`, `UI`, ...) whose identities do not matter
here beyond being distinct from `AUTOMATOR`. -/
inductive UpdateChannel where
  | AUTOMATOR
  | CLI
  | UI
  | UNKNOWN
deriving DecidableEq, Repr

/-- Reasons the store can give for refusing an update
(`options.NotWritableReason`).  Only `DRIFTED` is treated specially by
the CLI; the others all abort the run. -/
inductive NotWritableReason where
  | READONLY
  | OPTION_ON_DISK
  | CHANNEL_NOT_ALLOWED
  | DRIFTED
deriving DecidableEq, Repr

/-- The `.value` string of a `NotWritableReason`, used in the fatal
diagnostic message. -/
def NotWritableReason.str : NotWritableReason → String
  | .READONLY => "readonly"
  | .OPTION_ON_DISK => "option_on_disk"
  | .CHANNEL_NOT_ALLOWED => "channel_not_allowed"
  | .DRIFTED => "drifted"

mutual
/-- A YAML document as produced by `yaml.safe_load`: nested string-keyed
mappings (`obj`) with scalar leaves.  `YamlFields` is the entry list of a
mapping. -/
inductive Yaml where
  | obj (entries : YamlFields)
  | str (s : String)
  | int (n : Int)
  | bool (b : Bool)
  | null
inductive YamlFields where
  | nil
  | cons (key : String) (val : Yaml) (rest : YamlFields)
end

deriving instance DecidableEq for Yaml
deriving instance DecidableEq for YamlFields

/-- The entries of a `YamlFields` as an association list. -/
def YamlFields.toList : YamlFields → List (String × Yaml)
  | .nil => []
  | .cons k y rest => (k, y) :: rest.toList

/-- `dict.get(key)` on a YAML mapping's fields: the first value bound to
`key`, if any. -/
def YamlFields.find : YamlFields → String → Option Yaml
  | .nil, _ => none
  | .cons k y rest, key => if k = key then some y else rest.find key

abbrev Key := String

variable {V : Type}

/-- Modelled from the spec: the external options store.  An option entry
has a key, a possibly-set stored value (`setValues k = none` means the
option is unset and `get` falls back to the default), a default value,
and a last-update-channel attribution. -/
structure Store (V : Type) where
  setValues : Key → Option V
  defaults : Key → V
  channels : Key → Option UpdateChannel

/-- Modelled from the spec: `options.get(key)` returns the stored value
if set, the default otherwise. -/
def Store.get (s : Store V) (k : Key) : V :=
  (s.setValues k).getD (s.defaults k)

/-- Modelled from the spec: `options.isset(key)`. -/
def Store.isset (s : Store V) (k : Key) : Bool :=
  (s.setValues k).isSome

/-- Modelled from the spec: `options.get_last_update_channel(key)`,
`None` when the option has never been written. -/
def Store.get_last_update_channel (s : Store V) (k : Key) : Option UpdateChannel :=
  s.channels k

/-- Modelled from the spec: `options.set(key, value, channel=ch)` stores
the value and stamps the channel. -/
def Store.set (s : Store V) (k : Key) (v : V) (ch : UpdateChannel) : Store V :=
  { setValues := Function.update s.setValues k (some v)
    defaults := s.defaults
    channels := Function.update s.channels k (some ch) }

/-- Modelled from the spec: `options.delete(key)` unsets the option,
removing its stored value and its channel attribution. -/
def Store.delete (s : Store V) (k : Key) : Store V :=
  { setValues := Function.update s.setValues k none
    defaults := s.defaults
    channels := Function.update s.channels k none }

/-- One mutation of the options store, as recorded in a run's trace:
either `options.set(key, value, coerce, channel)` or
`options.delete(key)`. -/
inductive StoreOp (V : Type) where
  | setOp (k : Key) (v : V) (coerce : Bool) (ch : UpdateChannel)
  | deleteOp (k : Key)
deriving DecidableEq

/-- The state a run threads along: the options store, the lines echoed so
far, and the trace of store mutations performed so far. -/
structure RunState (V : Type) where
  store : Store V
  output : List String
  trace : List (StoreOp V)

/-- `click.echo(msg)`. -/
def RunState.echo (st : RunState V) (msg : String) : RunState V :=
  { st with output := st.output ++ [msg] }

/-- `options.set(k, v, coerce=False, channel=ch)`: mutates the store and
records the mutation in the trace. -/
def RunState.doSet (st : RunState V) (k : Key) (v : V) (ch : UpdateChannel) : RunState V :=
  { st with
    store := st.store.set k v ch
    trace := st.trace ++ [.setOp k v false ch] }

/-- `options.delete(k)`: mutates the store and records the mutation in
the trace. -/
def RunState.doDelete (st : RunState V) (k : Key) : RunState V :=
  { st with
    store := st.store.delete k
    trace := st.trace ++ [.deleteOp k] }

/-- `DRIFT_MSG % key`. -/
def DRIFT_MSG (key : Key) : String :=
  "[DRIFT] Option " ++ key ++ " drifted and cannot be updated."

/-- `CHANNEL_UPDATE_MSG % key`. -/
def CHANNEL_UPDATE_MSG (key : Key) : String :=
  "[CHANNEL UPDATE] Option " ++ key ++ " value unchanged. Last update channel updated."

/-- `UPDATE_MSG % key`. -/
def UPDATE_MSG (key : Key) : String :=
  "[UPDATE] Option " ++ key ++ " updated."

/-- `UNSET_MSG % key`. -/
def UNSET_MSG (key : Key) : String :=
  "[UNSET] Option " ++ key ++ " unset."

/-- The dry-run banner echoed by `patch` and `sync`. -/
def DRY_RUN_BANNER : String :=
  "!!! Dry-run flag on. No update will be performed."

/-- `_attempt_update(key, value, drifted_options, dry_run)` from
`configoptions.py`, acting on the ambient store threaded through
`RunState`. -/
def attempt_update [DecidableEq V] (key : Key) (value : V)
    (drifted_options : List Key) (dry_run : Bool) (st : RunState V) : RunState V :=
  if key ∈ drifted_options then
    st.echo (DRIFT_MSG key)
  else if st.store.get key = value then
    match st.store.get_last_update_channel key with
    | none =>
      let st := if dry_run then st else st.doSet key value .AUTOMATOR
      st.echo (UPDATE_MSG key)
    | some last_update_channel =>
      if last_update_channel ≠ UpdateChannel.AUTOMATOR then
        let st := if dry_run then st else st.doSet key value .AUTOMATOR
        st.echo (CHANNEL_UPDATE_MSG key)
      else
        st
  else
    let st := if dry_run then st else st.doSet key value .AUTOMATOR
    st.echo (UPDATE_MSG key)

/-- The loop of the `patch` subcommand: `_attempt_update` every key of
the input document in order. -/
def patchLoop [DecidableEq V] (options_to_update : List (Key × V))
    (drifted_options : List Key) (dry_run : Bool) (st : RunState V) : RunState V :=
  options_to_update.foldl
    (fun st kv => attempt_update kv.1 kv.2 drifted_options dry_run st) st

/-- The body of the `patch` subcommand: echo the dry-run banner when the
flag is on, then run the patch loop. -/
def patchCmd [DecidableEq V] (options_to_update : List (Key × V))
    (drifted_options : List Key) (dry_run : Bool) (st : RunState V) : RunState V :=
  patchLoop options_to_update drifted_options dry_run
    (if dry_run then st.echo DRY_RUN_BANNER else st)

/-- One iteration of the `sync` loop, for the automator-modifiable
option named `name`: delegate to `_attempt_update` when the key is in
the input document, otherwise delete (unless dry run) when it is set by
the automator channel, report drift when it is set by another channel,
and do nothing when it is unset. -/
def syncStep [DecidableEq V] (options_to_update : List (Key × V))
    (drifted_options : List Key) (dry_run : Bool) (st : RunState V) (name : Key) :
    RunState V :=
  match options_to_update.lookup name with
  | some v => attempt_update name v drifted_options dry_run st
  | none =>
    if st.store.isset name then
      if st.store.get_last_update_channel name = some UpdateChannel.AUTOMATOR then
        let st := if dry_run then st else st.doDelete name
        st.echo (UNSET_MSG name)
      else
        st.echo (DRIFT_MSG name)
    else
      st

/-- The loop of the `sync` subcommand: process every automator-modifiable
option (`options.filter(FLAG_AUTOMATOR_MODIFIABLE)`, whose names are
`all_options`) in order. -/
def syncLoop [DecidableEq V] (all_options : List Key)
    (options_to_update : List (Key × V)) (drifted_options : List Key)
    (dry_run : Bool) (st : RunState V) : RunState V :=
  all_options.foldl
    (fun st name => syncStep options_to_update drifted_options dry_run st name) st

/-- The body of the `sync` subcommand: echo the dry-run banner when the
flag is on, then run the sync loop. -/
def syncCmd [DecidableEq V] (all_options : List Key)
    (options_to_update : List (Key × V)) (drifted_options : List Key)
    (dry_run : Bool) (st : RunState V) : RunState V :=
  syncLoop all_options options_to_update drifted_options dry_run
    (if dry_run then st.echo DRY_RUN_BANNER else st)

/-- The initial state of one CLI invocation: the ambient store, no
output, no mutations performed. -/
def initState (s : Store V) : RunState V :=
  { store := s, output := [], trace := [] }

/-- Result of the path walk of the `configoptions` group callback
(lines 120-134): the sub-document reached, a missing key (echo plus
`exit(-1)`), or an `AttributeError` because `.get` was called on a
non-mapping node. -/
inductive WalkResult where
  | ok (y : Yaml)
  | missing (key : String) (current_path : String)
  | notMapping
deriving DecidableEq

/-- The path walk of the `configoptions` group callback: follow each
non-empty path segment into the nested mapping, tracking
`current_path`. -/
def walkPath : Yaml → List String → String → WalkResult
  | y, [], _ => .ok y
  | y, key :: rest, current_path =>
    if key = "" then walkPath y rest current_path
    else
      match y with
      | .obj entries =>
        match entries.find key with
        | none => .missing key current_path
        | some y2 => walkPath y2 rest (current_path ++ "/" ++ key)
      | _ => .notMapping

/-- The `can_update` pre-pass of the `configoptions` group callback
(lines 137-148): scan the input document in order; a key refused for any
reason other than `DRIFTED` aborts with that key and reason, otherwise
the keys refused for `DRIFTED` are collected as the drift set. -/
def computeDrifted (can_update : Key → V → Option NotWritableReason) :
    List (Key × V) → Except (Key × NotWritableReason) (List Key)
  | [] => .ok []
  | (key, value) :: rest =>
    match can_update key value with
    | some r =>
      if r ≠ NotWritableReason.DRIFTED then .error (key, r)
      else (computeDrifted can_update rest).map (fun ds => key :: ds)
    | none => computeDrifted can_update rest

/-- The subcommand being invoked. -/
inductive Subcommand where
  | patch
  | sync
deriving DecidableEq

/-- Result of one CLI invocation: a normal finish, an `exit(code)`, or
an uncaught Python exception (raised when the node reached by the path
is not a mapping). -/
inductive Outcome (V : Type) where
  | done (st : RunState V)
  | fatal (code : Int) (st : RunState V)
  | crash (st : RunState V)

/-- The exit code of an `exit(...)` outcome. -/
def Outcome.exitCode : Outcome V → Option Int
  | .fatal code _ => some code
  | _ => none

/-- The run state at the end of the invocation, whatever the outcome. -/
def Outcome.finalState : Outcome V → RunState V
  | .done st => st
  | .fatal _ st => st
  | .crash st => st

/-- Python's `path.split("/")`: cut the character list at every slash,
keeping empty segments (the helper carries the current segment in
reverse). -/
def splitCharAux (sep : Char) : List Char → List Char → List String
  | [], acc => [String.mk acc.reverse]
  | c :: rest, acc =>
    if c = sep then String.mk acc.reverse :: splitCharAux sep rest []
    else splitCharAux sep rest (c :: acc)

/-- `path.split("/")` from line 120 of `configoptions.py`. -/
def splitSlash (s : String) : List String := splitCharAux '/' s.data []

/-- The whole `configoptions` invocation: the group callback (path walk
with the implicit trailing `options` segment, then the `can_update`
pre-pass building the drift set), followed by the chosen subcommand.
`can_update k v` is the store's `options.can_update(k, v, AUTOMATOR)`
oracle and `all_options` the names of the automator-modifiable
options. -/
def configoptionsRun (can_update : Key → Yaml → Option NotWritableReason)
    (all_options : List Key) (doc : Yaml) (path : String) (dry_run : Bool)
    (sub : Subcommand) (st : RunState Yaml) : Outcome Yaml :=
  let path_list := splitSlash path ++ ["options"]
  match walkPath doc path_list "" with
  | .missing key current_path =>
    .fatal (-1)
      (st.echo ("Invalid path. Key " ++ key ++ " not found in /" ++ current_path))
  | .notMapping => .crash st
  | .ok (.obj entries) =>
    let options_to_update := entries.toList
    match computeDrifted can_update options_to_update with
    | .error (key, r) =>
      .fatal (-1)
        (st.echo ("Invalid option. " ++ key ++ " cannot be updated. Reason " ++ r.str))
    | .ok drifted_options =>
      match sub with
      | .patch => .done (patchCmd options_to_update drifted_options dry_run st)
      | .sync => .done (syncCmd all_options options_to_update drifted_options dry_run st)
  | .ok _ => .crash st

/-- The lines `_attempt_update` echoes, as a function of the drift set
and of the stored value and channel attribution of the key.  The
dry-run flag does not appear: dry and real runs echo the same lines. -/
def reconcileMsgs [DecidableEq V] (key : Key) (value : V) (drifted : List Key)
    (cur : V) (ch : Option UpdateChannel) : List String :=
  if key ∈ drifted then [DRIFT_MSG key]
  else if cur = value then
    match ch with
    | none => [UPDATE_MSG key]
    | some c => if c ≠ UpdateChannel.AUTOMATOR then [CHANNEL_UPDATE_MSG key] else []
  else [UPDATE_MSG key]

/-- Whether a non-dry `_attempt_update` writes to the store, as a
function of the drift set and of the stored value and channel
attribution of the key. -/
def reconcileWrites [DecidableEq V] (key : Key) (value : V) (drifted : List Key)
    (cur : V) (ch : Option UpdateChannel) : Bool :=
  if key ∈ drifted then false
  else if cur = value then
    match ch with
    | none => true
    | some c => decide (c ≠ UpdateChannel.AUTOMATOR)
  else true

/-- The lines one `sync` iteration echoes for the option `name`, as a
function of the input document, the drift set and the store.  The
dry-run flag does not appear: dry and real runs echo the same lines. -/
def syncStepMsgs [DecidableEq V] (options_to_update : List (Key × V))
    (drifted : List Key) (name : Key) (s : Store V) : List String :=
  match options_to_update.lookup name with
  | some v => reconcileMsgs name v drifted (s.get name) (s.channels name)
  | none =>
    if s.isset name then
      if s.channels name = some UpdateChannel.AUTOMATOR then [UNSET_MSG name]
      else [DRIFT_MSG name]
    else []

/-- Two stores agree on a key: same stored value, same default and same
channel attribution (hence same `get`, `isset` and
`get_last_update_channel`). -/
def AgreesOn (s₁ s₂ : Store V) (k : Key) : Prop :=
  s₁.setValues k = s₂.setValues k ∧ s₁.defaults k = s₂.defaults k ∧
    s₁.channels k = s₂.channels k

/-- A key of the input document on which `_attempt_update` is a no-op
with respect to the store: either drifted, or already holding the
desired value under the automator channel. -/
def PatchSettled [DecidableEq V] (d : List Key) (s : Store V) (p : Key × V) : Prop :=
  p.1 ∈ d ∨ (s.get p.1 = p.2 ∧ s.channels p.1 = some UpdateChannel.AUTOMATOR)

/-- An automator-modifiable key on which one `sync` iteration performs
no store mutation: for a key of the input document, drifted or already
holding the desired value under the automator channel; for a key absent
from the document, unset or attributed to another channel. -/
def SyncSettled [DecidableEq V] (options_to_update : List (Key × V)) (d : List Key)
    (s : Store V) (name : Key) : Prop :=
  match options_to_update.lookup name with
  | some v => name ∈ d ∨ (s.get name = v ∧ s.channels name = some UpdateChannel.AUTOMATOR)
  | none => s.isset name = false ∨ s.channels name ≠ some UpdateChannel.AUTOMATOR

/-- A small concrete store used to evaluate the theorems on concrete
inputs: `b` is set to `2` by the automator, `c` is set to `5` by the
CLI channel, everything else is unset with default `0`. -/
def sampleStore : Store Nat :=
  { setValues := fun k => if k = "b" then some 2 else if k = "c" then some 5 else none
    defaults := fun _ => 0
    channels := fun k =>
      if k = "b" then some UpdateChannel.AUTOMATOR
      else if k = "c" then some UpdateChannel.CLI
      else none }

/-- The entries of the options mapping of `sampleYaml`. -/
def sampleFields : YamlFields := .cons "a" (.int 1) (.cons "dr" (.int 2) .nil)

/-- A concrete input document whose `options` mapping binds `a` to `1`
and `dr` to `2`. -/
def sampleYaml : Yaml := .obj (.cons "options" (.obj sampleFields) .nil)

/-- The entries of the options mapping of `sampleYamlBad`. -/
def sampleFieldsBad : YamlFields := .cons "r" (.int 1) .nil

/-- A concrete input document whose only key is refused as read-only. -/
def sampleYamlBad : Yaml := .obj (.cons "options" (.obj sampleFieldsBad) .nil)

/-- A concrete `can_update` oracle: `r` is refused as read-only, `dr` is
refused as drifted, everything else is writable. -/
def sampleCanUpdate : Key → Yaml → Option NotWritableReason := fun k _ =>
  if k = "r" then some .READONLY
  else if k = "dr" then some .DRIFTED
  else none

/-- A concrete, fully unset store of YAML values. -/
def sampleYamlStore : Store Yaml :=
  { setValues := fun _ => none
    defaults := fun _ => .null
    channels := fun _ => none }

theorem Store.get_set_self (s : Store V) (k : Key) (v : V) (ch : UpdateChannel) :
    (s.set k v ch).get k = v := by
  simp [Store.set, Store.get, Function.update_same]

theorem Store.channels_set_self (s : Store V) (k : Key) (v : V) (ch : UpdateChannel) :
    (s.set k v ch).channels k = some ch := by
  simp [Store.set, Function.update_same]

theorem Store.isset_delete_self (s : Store V) (k : Key) :
    (s.delete k).isset k = false := by
  simp [Store.delete, Store.isset, Function.update_same]

theorem AgreesOn.refl (s : Store V) (k : Key) : AgreesOn s s k :=
  ⟨Eq.refl _, Eq.refl _, Eq.refl _⟩

theorem AgreesOn.symm {s₁ s₂ : Store V} {k : Key} (h : AgreesOn s₁ s₂ k) :
    AgreesOn s₂ s₁ k :=
  ⟨h.1.symm, h.2.1.symm, h.2.2.symm⟩

theorem AgreesOn.trans {s₁ s₂ s₃ : Store V} {k : Key} (h₁ : AgreesOn s₁ s₂ k)
    (h₂ : AgreesOn s₂ s₃ k) : AgreesOn s₁ s₃ k :=
  ⟨h₁.1.trans h₂.1, h₁.2.1.trans h₂.2.1, h₁.2.2.trans h₂.2.2⟩

theorem AgreesOn.get_eq {s₁ s₂ : Store V} {k : Key} (h : AgreesOn s₁ s₂ k) :
    s₁.get k = s₂.get k := by
  simp [Store.get, h.1, h.2.1]

theorem AgreesOn.isset_eq {s₁ s₂ : Store V} {k : Key} (h : AgreesOn s₁ s₂ k) :
    s₁.isset k = s₂.isset k := by
  simp [Store.isset, h.1]

theorem Store.set_agrees (s : Store V) (k k' : Key) (v : V) (ch : UpdateChannel)
    (h : k' ≠ k) : AgreesOn (s.set k v ch) s k' := by
  refine ⟨?_, Eq.refl _, ?_⟩ <;> simp [Store.set, Function.update_noteq h]

theorem Store.delete_agrees (s : Store V) (k k' : Key) (h : k' ≠ k) :
    AgreesOn (s.delete k) s k' := by
  refine ⟨?_, Eq.refl _, ?_⟩ <;> simp [Store.delete, Function.update_noteq h]

theorem attempt_update_eq [DecidableEq V] (key : Key) (value : V) (d : List Key)
    (dry : Bool) (st : RunState V) :
    attempt_update key value d dry st =
      { store :=
          if dry = false ∧
              reconcileWrites key value d (st.store.get key) (st.store.channels key) = true
          then st.store.set key value .AUTOMATOR else st.store
        output :=
          st.output ++ reconcileMsgs key value d (st.store.get key) (st.store.channels key)
        trace :=
          st.trace ++
            if dry = false ∧
                reconcileWrites key value d (st.store.get key) (st.store.channels key) = true
            then [StoreOp.setOp key value false .AUTOMATOR] else [] } := by
  by_cases hk : key ∈ d
  · simp [attempt_update, reconcileMsgs, reconcileWrites, hk, RunState.echo]
  · rcases hch : st.store.channels key with _ | c
    · by_cases hv : st.store.get key = value <;>
        cases dry <;>
          simp [attempt_update, reconcileMsgs, reconcileWrites, hk, hv,
            Store.get_last_update_channel, hch, RunState.echo, RunState.doSet]
    · by_cases hv : st.store.get key = value
      · by_cases hc : c = UpdateChannel.AUTOMATOR <;>
          cases dry <;>
            simp [attempt_update, reconcileMsgs, reconcileWrites, hk, hv, hc,
              Store.get_last_update_channel, hch, RunState.echo, RunState.doSet]
      · cases dry <;>
          simp [attempt_update, reconcileMsgs, reconcileWrites, hk, hv,
            Store.get_last_update_channel, hch, RunState.echo, RunState.doSet]

theorem Store.last_update_channel_eq (s : Store V) (k : Key) :
    s.get_last_update_channel k = s.channels k := rfl

theorem attempt_update_output [DecidableEq V] (key : Key) (value : V) (d : List Key)
    (dry : Bool) (st : RunState V) :
    (attempt_update key value d dry st).output =
      st.output ++ reconcileMsgs key value d (st.store.get key) (st.store.channels key) := by
  rw [attempt_update_eq]

theorem attempt_update_store_dry [DecidableEq V] (key : Key) (value : V) (d : List Key)
    (st : RunState V) : (attempt_update key value d true st).store = st.store := by
  rw [attempt_update_eq]
  simp

theorem attempt_update_trace_dry [DecidableEq V] (key : Key) (value : V) (d : List Key)
    (st : RunState V) : (attempt_update key value d true st).trace = st.trace := by
  rw [attempt_update_eq]
  simp

theorem attempt_update_frame [DecidableEq V] (key : Key) (value : V) (d : List Key)
    (dry : Bool) (st : RunState V) (k' : Key) (h : k' ≠ key) :
    AgreesOn (attempt_update key value d dry st).store st.store k' := by
  rw [attempt_update_eq]
  dsimp only
  split
  · exact Store.set_agrees _ _ _ _ _ h
  · exact AgreesOn.refl _ _

theorem reconcileWrites_false [DecidableEq V] {key : Key} {value : V} {d : List Key}
    {cur : V} {ch : Option UpdateChannel} (hk : key ∉ d)
    (h : reconcileWrites key value d cur ch = false) :
    cur = value ∧ ch = some UpdateChannel.AUTOMATOR := by
  by_cases hv : cur = value
  · rcases ch with _ | c
    · simp [reconcileWrites, hk, hv] at h
    · by_cases hc : c = UpdateChannel.AUTOMATOR
      · exact ⟨hv, by rw [hc]⟩
      · simp [reconcileWrites, hk, hv, hc] at h
  · simp [reconcileWrites, hk, hv] at h

theorem attempt_update_post [DecidableEq V] (key : Key) (value : V) (d : List Key)
    (st : RunState V) (hk : key ∉ d) :
    (attempt_update key value d false st).store.get key = value ∧
      (attempt_update key value d false st).store.channels key =
        some UpdateChannel.AUTOMATOR := by
  rw [attempt_update_eq]
  dsimp only
  split
  · exact ⟨Store.get_set_self _ _ _ _, Store.channels_set_self _ _ _ _⟩
  · rename_i hcond
    have hw : reconcileWrites key value d (st.store.get key) (st.store.channels key)
        = false := by
      by_contra hne
      exact hcond ⟨Eq.refl _, by simpa using hne⟩
    exact reconcileWrites_false hk hw

theorem attempt_update_noop [DecidableEq V] (key : Key) (value : V) (d : List Key)
    (dry : Bool) (st : RunState V) (hk : key ∉ d) (hv : st.store.get key = value)
    (hc : st.store.channels key = some UpdateChannel.AUTOMATOR) :
    attempt_update key value d dry st = st := by
  rw [attempt_update_eq]
  simp [reconcileWrites, reconcileMsgs, hk, hv, hc]

theorem attempt_update_drift [DecidableEq V] (key : Key) (value : V) (d : List Key)
    (dry : Bool) (st : RunState V) (hk : key ∈ d) :
    attempt_update key value d dry st = st.echo (DRIFT_MSG key) := by
  simp [attempt_update, hk]

theorem syncStep_output [DecidableEq V] (doc : List (Key × V)) (d : List Key)
    (dry : Bool) (st : RunState V) (name : Key) :
    (syncStep doc d dry st name).output =
      st.output ++ syncStepMsgs doc d name st.store := by
  rcases hlk : doc.lookup name with _ | v
  · cases hs : st.store.isset name
    · simp [syncStep, syncStepMsgs, hlk, hs]
    · by_cases hc : st.store.channels name = some UpdateChannel.AUTOMATOR <;>
        cases dry <;>
          simp [syncStep, syncStepMsgs, hlk, hs, hc, Store.last_update_channel_eq,
            RunState.echo, RunState.doDelete]
  · simp [syncStep, syncStepMsgs, hlk, attempt_update_output]

theorem syncStep_store_dry [DecidableEq V] (doc : List (Key × V)) (d : List Key)
    (st : RunState V) (name : Key) :
    (syncStep doc d true st name).store = st.store := by
  rcases hlk : doc.lookup name with _ | v
  · cases hs : st.store.isset name
    · simp [syncStep, hlk, hs]
    · by_cases hc : st.store.channels name = some UpdateChannel.AUTOMATOR <;>
        simp [syncStep, hlk, hs, hc, Store.last_update_channel_eq, RunState.echo]
  · simp [syncStep, hlk, attempt_update_store_dry]

theorem syncStep_trace_dry [DecidableEq V] (doc : List (Key × V)) (d : List Key)
    (st : RunState V) (name : Key) :
    (syncStep doc d true st name).trace = st.trace := by
  rcases hlk : doc.lookup name with _ | v
  · cases hs : st.store.isset name
    · simp [syncStep, hlk, hs]
    · by_cases hc : st.store.channels name = some UpdateChannel.AUTOMATOR <;>
        simp [syncStep, hlk, hs, hc, Store.last_update_channel_eq, RunState.echo]
  · simp [syncStep, hlk, attempt_update_trace_dry]

theorem syncStep_frame [DecidableEq V] (doc : List (Key × V)) (d : List Key)
    (dry : Bool) (st : RunState V) (name k' : Key) (h : k' ≠ name) :
    AgreesOn (syncStep doc d dry st name).store st.store k' := by
  rcases hlk : doc.lookup name with _ | v
  · cases hs : st.store.isset name
    · simp only [syncStep, hlk, hs]
      exact AgreesOn.refl _ _
    · by_cases hc : st.store.channels name = some UpdateChannel.AUTOMATOR
      · cases dry <;>
          simp only [syncStep, hlk, hs, hc, Store.last_update_channel_eq, if_true,
            if_false, Bool.false_eq_true, RunState.echo, RunState.doDelete, if_pos,
            ite_true, ite_false]
        · exact Store.delete_agrees _ _ _ h
        · exact AgreesOn.refl _ _
      · simp only [syncStep, hlk, hs, hc, Store.last_update_channel_eq, if_neg,
          RunState.echo, ite_true, ite_false]
        exact AgreesOn.refl _ _
  · simp only [syncStep, hlk]
    exact attempt_update_frame _ _ _ _ _ _ h

theorem syncStepMsgs_congr [DecidableEq V] (doc : List (Key × V)) (d : List Key)
    (name : Key) {s₁ s₂ : Store V} (h : AgreesOn s₁ s₂ name) :
    syncStepMsgs doc d name s₁ = syncStepMsgs doc d name s₂ := by
  rcases hlk : doc.lookup name with _ | v <;>
    simp [syncStepMsgs, hlk, h.get_eq, h.isset_eq, h.2.2]

theorem patchLoop_nil [DecidableEq V] (d : List Key) (dry : Bool) (st : RunState V) :
    patchLoop ([] : List (Key × V)) d dry st = st := rfl

theorem patchLoop_cons [DecidableEq V] (k : Key) (v : V) (rest : List (Key × V))
    (d : List Key) (dry : Bool) (st : RunState V) :
    patchLoop ((k, v) :: rest) d dry st =
      patchLoop rest d dry (attempt_update k v d dry st) := rfl

theorem syncLoop_nil [DecidableEq V] (doc : List (Key × V)) (d : List Key)
    (dry : Bool) (st : RunState V) : syncLoop [] doc d dry st = st := rfl

theorem syncLoop_cons [DecidableEq V] (name : Key) (rest : List Key)
    (doc : List (Key × V)) (d : List Key) (dry : Bool) (st : RunState V) :
    syncLoop (name :: rest) doc d dry st =
      syncLoop rest doc d dry (syncStep doc d dry st name) := rfl

theorem patchLoop_store_dry [DecidableEq V] (doc : List (Key × V)) (d : List Key)
    (st : RunState V) : (patchLoop doc d true st).store = st.store := by
  induction doc generalizing st with
  | nil => rfl
  | cons p rest ih =>
    obtain ⟨k, v⟩ := p
    rw [patchLoop_cons, ih, attempt_update_store_dry]

theorem patchLoop_trace_dry [DecidableEq V] (doc : List (Key × V)) (d : List Key)
    (st : RunState V) : (patchLoop doc d true st).trace = st.trace := by
  induction doc generalizing st with
  | nil => rfl
  | cons p rest ih =>
    obtain ⟨k, v⟩ := p
    rw [patchLoop_cons, ih, attempt_update_trace_dry]

theorem syncLoop_store_dry [DecidableEq V] (names : List Key) (doc : List (Key × V))
    (d : List Key) (st : RunState V) : (syncLoop names doc d true st).store = st.store := by
  induction names generalizing st with
  | nil => rfl
  | cons name rest ih =>
    rw [syncLoop_cons, ih, syncStep_store_dry]

theorem syncLoop_trace_dry [DecidableEq V] (names : List Key) (doc : List (Key × V))
    (d : List Key) (st : RunState V) : (syncLoop names doc d true st).trace = st.trace := by
  induction names generalizing st with
  | nil => rfl
  | cons name rest ih =>
    rw [syncLoop_cons, ih, syncStep_trace_dry]

theorem patchLoop_frame [DecidableEq V] (doc : List (Key × V)) (d : List Key)
    (dry : Bool) (st : RunState V) (k' : Key) (hk : k' ∉ doc.map Prod.fst) :
    AgreesOn (patchLoop doc d dry st).store st.store k' := by
  induction doc generalizing st with
  | nil => exact AgreesOn.refl _ _
  | cons p rest ih =>
    obtain ⟨k, v⟩ := p
    simp only [List.map_cons, List.mem_cons, not_or] at hk
    rw [patchLoop_cons]
    exact (ih _ hk.2).trans (attempt_update_frame _ _ _ _ _ _ hk.1)

theorem syncLoop_frame [DecidableEq V] (names : List Key) (doc : List (Key × V))
    (d : List Key) (dry : Bool) (st : RunState V) (k' : Key) (hk : k' ∉ names) :
    AgreesOn (syncLoop names doc d dry st).store st.store k' := by
  induction names generalizing st with
  | nil => exact AgreesOn.refl _ _
  | cons name rest ih =>
    simp only [List.mem_cons, not_or] at hk
    rw [syncLoop_cons]
    exact (ih _ hk.2).trans (syncStep_frame _ _ _ _ _ _ hk.1)

theorem attempt_update_output_extend [DecidableEq V] (key : Key) (value : V)
    (d : List Key) (dry : Bool) (st : RunState V) (out₀ : List String) :
    attempt_update key value d dry { st with output := out₀ ++ st.output } =
      { attempt_update key value d dry st with
        output := out₀ ++ (attempt_update key value d dry st).output } := by
  rw [attempt_update_eq, attempt_update_eq]
  simp

theorem syncStep_output_extend [DecidableEq V] (doc : List (Key × V)) (d : List Key)
    (dry : Bool) (st : RunState V) (name : Key) (out₀ : List String) :
    syncStep doc d dry { st with output := out₀ ++ st.output } name =
      { syncStep doc d dry st name with
        output := out₀ ++ (syncStep doc d dry st name).output } := by
  rcases hlk : doc.lookup name with _ | v
  · cases hs : st.store.isset name
    · simp [syncStep, hlk, hs]
    · by_cases hc : st.store.channels name = some UpdateChannel.AUTOMATOR <;>
        cases dry <;>
          simp [syncStep, hlk, hs, hc, Store.last_update_channel_eq,
            RunState.echo, RunState.doDelete]
  · simp only [syncStep, hlk]
    exact attempt_update_output_extend _ _ _ _ _ _

theorem patchLoop_output_extend [DecidableEq V] (doc : List (Key × V)) (d : List Key)
    (dry : Bool) (st : RunState V) (out₀ : List String) :
    patchLoop doc d dry { st with output := out₀ ++ st.output } =
      { patchLoop doc d dry st with
        output := out₀ ++ (patchLoop doc d dry st).output } := by
  induction doc generalizing st with
  | nil => rfl
  | cons p rest ih =>
    obtain ⟨k, v⟩ := p
    rw [patchLoop_cons, patchLoop_cons, attempt_update_output_extend, ih]

theorem syncLoop_output_extend [DecidableEq V] (names : List Key)
    (doc : List (Key × V)) (d : List Key) (dry : Bool) (st : RunState V)
    (out₀ : List String) :
    syncLoop names doc d dry { st with output := out₀ ++ st.output } =
      { syncLoop names doc d dry st with
        output := out₀ ++ (syncLoop names doc d dry st).output } := by
  induction names generalizing st with
  | nil => rfl
  | cons name rest ih =>
    rw [syncLoop_cons, syncLoop_cons, syncStep_output_extend, ih]

theorem patchLoop_output_congr [DecidableEq V] (doc : List (Key × V)) (d : List Key)
    (dry₁ dry₂ : Bool) (st₁ st₂ : RunState V)
    (hnd : (doc.map Prod.fst).Nodup)
    (hag : ∀ p ∈ doc, AgreesOn st₁.store st₂.store p.1)
    (hout : st₁.output = st₂.output) :
    (patchLoop doc d dry₁ st₁).output = (patchLoop doc d dry₂ st₂).output := by
  induction doc generalizing st₁ st₂ with
  | nil => exact hout
  | cons p rest ih =>
    obtain ⟨k, v⟩ := p
    simp only [List.map_cons, List.nodup_cons] at hnd
    have hagk : AgreesOn st₁.store st₂.store k := hag (k, v) (List.mem_cons_self _ _)
    rw [patchLoop_cons, patchLoop_cons]
    refine ih _ _ hnd.2 ?_ ?_
    · intro p hp
      have hne : p.1 ≠ k := by
        intro hpk
        exact hnd.1 (hpk ▸ List.mem_map_of_mem Prod.fst hp)
      exact ((attempt_update_frame _ _ _ _ _ _ hne).trans
        (hag p (List.mem_cons_of_mem _ hp))).trans
        ((attempt_update_frame _ _ _ _ _ _ hne).symm)
    · rw [attempt_update_output, attempt_update_output, hout, hagk.get_eq, hagk.2.2]

theorem syncLoop_output_congr [DecidableEq V] (names : List Key)
    (doc : List (Key × V)) (d : List Key) (dry₁ dry₂ : Bool) (st₁ st₂ : RunState V)
    (hnd : names.Nodup)
    (hag : ∀ k ∈ names, AgreesOn st₁.store st₂.store k)
    (hout : st₁.output = st₂.output) :
    (syncLoop names doc d dry₁ st₁).output = (syncLoop names doc d dry₂ st₂).output := by
  induction names generalizing st₁ st₂ with
  | nil => exact hout
  | cons name rest ih =>
    simp only [List.nodup_cons] at hnd
    have hagk : AgreesOn st₁.store st₂.store name := hag name (List.mem_cons_self _ _)
    rw [syncLoop_cons, syncLoop_cons]
    refine ih _ _ hnd.2 ?_ ?_
    · intro k hk
      have hne : k ≠ name := by
        intro hkn
        exact hnd.1 (hkn ▸ hk)
      exact ((syncStep_frame _ _ _ _ _ _ hne).trans
        (hag k (List.mem_cons_of_mem _ hk))).trans
        ((syncStep_frame _ _ _ _ _ _ hne).symm)
    · rw [syncStep_output, syncStep_output, hout, syncStepMsgs_congr _ _ _ hagk]

theorem patchLoop_post [DecidableEq V] (doc : List (Key × V)) (d : List Key)
    (st : RunState V) (hnd : (doc.map Prod.fst).Nodup) :
    ∀ p ∈ doc, PatchSettled d (patchLoop doc d false st).store p := by
  induction doc generalizing st with
  | nil =>
    intro p hp
    cases hp
  | cons q rest ih =>
    obtain ⟨k, v⟩ := q
    simp only [List.map_cons, List.nodup_cons] at hnd
    intro p hp
    rw [patchLoop_cons]
    rcases List.mem_cons.mp hp with heq | hmem
    · subst heq
      by_cases hk : k ∈ d
      · exact Or.inl hk
      · have hpost := attempt_update_post k v d st hk
        have hfr := patchLoop_frame rest d false (attempt_update k v d false st) k hnd.1
        exact Or.inr ⟨hfr.get_eq.trans hpost.1, hfr.2.2.trans hpost.2⟩
    · exact ih _ hnd.2 p hmem

theorem patchLoop_noop [DecidableEq V] (doc : List (Key × V)) (d : List Key)
    (dry : Bool) (st : RunState V)
    (hpre : ∀ p ∈ doc, PatchSettled d st.store p) :
    (patchLoop doc d dry st).store = st.store ∧
      (patchLoop doc d dry st).trace = st.trace := by
  induction doc generalizing st with
  | nil => exact ⟨rfl, rfl⟩
  | cons q rest ih =>
    obtain ⟨k, v⟩ := q
    rw [patchLoop_cons]
    by_cases hk : k ∈ d
    · rw [attempt_update_drift _ _ _ _ _ hk]
      exact ih (st.echo (DRIFT_MSG k)) (fun p hp => hpre p (List.mem_cons_of_mem _ hp))
    · have hq := (hpre (k, v) (List.mem_cons_self _ _)).resolve_left hk
      rw [attempt_update_noop _ _ _ _ _ hk hq.1 hq.2]
      exact ih st (fun p hp => hpre p (List.mem_cons_of_mem _ hp))

theorem syncStep_post [DecidableEq V] (doc : List (Key × V)) (d : List Key)
    (st : RunState V) (name : Key) :
    SyncSettled doc d (syncStep doc d false st name).store name := by
  rcases hlk : doc.lookup name with _ | v
  · simp only [SyncSettled, hlk]
    cases hv : st.store.setValues name with
    | none =>
      left
      simp [syncStep, hlk, Store.isset, hv]
    | some w =>
      by_cases hc : st.store.channels name = some UpdateChannel.AUTOMATOR
      · left
        simp [syncStep, hlk, Store.isset, hv, hc, Store.last_update_channel_eq,
          RunState.doDelete, RunState.echo, Store.delete, Function.update_same]
      · right
        simp [syncStep, hlk, Store.isset, hv, hc, Store.last_update_channel_eq,
          RunState.echo]
  · simp only [SyncSettled, hlk]
    by_cases hk : name ∈ d
    · exact Or.inl hk
    · right
      simp only [syncStep, hlk]
      exact attempt_update_post name v d st hk

theorem SyncSettled.of_agrees [DecidableEq V] {doc : List (Key × V)} {d : List Key}
    {s₁ s₂ : Store V} {k : Key} (h : AgreesOn s₁ s₂ k)
    (hs : SyncSettled doc d s₂ k) : SyncSettled doc d s₁ k := by
  rcases hlk : doc.lookup k with _ | v <;> simp only [SyncSettled, hlk] at hs ⊢
  · rcases hs with h1 | h1
    · exact Or.inl (h.isset_eq.trans h1)
    · exact Or.inr (fun hcon => h1 (h.2.2.symm.trans hcon))
  · rcases hs with h1 | h1
    · exact Or.inl h1
    · exact Or.inr ⟨h.get_eq.trans h1.1, h.2.2.trans h1.2⟩

theorem syncLoop_post [DecidableEq V] (names : List Key) (doc : List (Key × V))
    (d : List Key) (st : RunState V) (hnd : names.Nodup) :
    ∀ k ∈ names, SyncSettled doc d (syncLoop names doc d false st).store k := by
  induction names generalizing st with
  | nil =>
    intro k hk
    cases hk
  | cons name rest ih =>
    simp only [List.nodup_cons] at hnd
    intro k hk
    rw [syncLoop_cons]
    rcases List.mem_cons.mp hk with heq | hmem
    · subst heq
      have hfr := syncLoop_frame rest doc d false (syncStep doc d false st k) k hnd.1
      exact SyncSettled.of_agrees hfr (syncStep_post doc d st k)
    · exact ih _ hnd.2 k hmem

theorem syncStep_noop [DecidableEq V] (doc : List (Key × V)) (d : List Key)
    (dry : Bool) (st : RunState V) (name : Key)
    (hset : SyncSettled doc d st.store name) :
    (syncStep doc d dry st name).store = st.store ∧
      (syncStep doc d dry st name).trace = st.trace := by
  rcases hlk : doc.lookup name with _ | v
  · simp only [SyncSettled, hlk] at hset
    rcases hset with h1 | h1
    · constructor <;> simp [syncStep, hlk, h1]
    · cases hs : st.store.isset name <;> constructor <;>
        simp [syncStep, hlk, hs, Store.last_update_channel_eq, h1, RunState.echo]
  · simp only [SyncSettled, hlk] at hset
    simp only [syncStep, hlk]
    by_cases hk : name ∈ d
    · rw [attempt_update_drift _ _ _ _ _ hk]
      exact ⟨rfl, rfl⟩
    · have hq := hset.resolve_left hk
      rw [attempt_update_noop _ _ _ _ _ hk hq.1 hq.2]
      exact ⟨rfl, rfl⟩

theorem syncLoop_noop [DecidableEq V] (names : List Key) (doc : List (Key × V))
    (d : List Key) (dry : Bool) (st : RunState V)
    (hpre : ∀ k ∈ names, SyncSettled doc d st.store k) :
    (syncLoop names doc d dry st).store = st.store ∧
      (syncLoop names doc d dry st).trace = st.trace := by
  induction names generalizing st with
  | nil => exact ⟨rfl, rfl⟩
  | cons name rest ih =>
    rw [syncLoop_cons]
    have hstep := syncStep_noop doc d dry st name (hpre name (List.mem_cons_self _ _))
    have hpre2 : ∀ k ∈ rest, SyncSettled doc d (syncStep doc d dry st name).store k := by
      intro k hk
      rw [hstep.1]
      exact hpre k (List.mem_cons_of_mem _ hk)
    have ihres := ih _ hpre2
    exact ⟨ihres.1.trans hstep.1, ihres.2.trans hstep.2⟩

theorem attempt_update_trace_ops [DecidableEq V] (key : Key) (value : V)
    (d : List Key) (dry : Bool) (st : RunState V) :
    ∀ op ∈ (attempt_update key value d dry st).trace,
      op ∈ st.trace ∨ op = StoreOp.setOp key value false UpdateChannel.AUTOMATOR := by
  rw [attempt_update_eq]
  intro op hop
  rcases List.mem_append.mp hop with h | h
  · exact Or.inl h
  · right
    split at h
    · simpa using h
    · simp at h

theorem patchLoop_trace_ops [DecidableEq V] (doc : List (Key × V)) (d : List Key)
    (dry : Bool) (st : RunState V) :
    ∀ op ∈ (patchLoop doc d dry st).trace,
      op ∈ st.trace ∨
        ∃ k v, (k, v) ∈ doc ∧ op = StoreOp.setOp k v false UpdateChannel.AUTOMATOR := by
  induction doc generalizing st with
  | nil =>
    intro op hop
    exact Or.inl hop
  | cons p rest ih =>
    obtain ⟨k, v⟩ := p
    intro op hop
    rw [patchLoop_cons] at hop
    rcases ih _ op hop with h | ⟨k', v', hm, he⟩
    · rcases attempt_update_trace_ops k v d dry st op h with h2 | h2
      · exact Or.inl h2
      · exact Or.inr ⟨k, v, List.mem_cons_self _ _, h2⟩
    · exact Or.inr ⟨k', v', List.mem_cons_of_mem _ hm, he⟩

theorem syncStep_trace_ops [DecidableEq V] (doc : List (Key × V)) (d : List Key)
    (dry : Bool) (st : RunState V) (name : Key) :
    ∀ op ∈ (syncStep doc d dry st name).trace,
      op ∈ st.trace ∨
        (∃ v, doc.lookup name = some v ∧
          op = StoreOp.setOp name v false UpdateChannel.AUTOMATOR) ∨
        (doc.lookup name = none ∧ op = StoreOp.deleteOp name ∧
          st.store.isset name = true ∧
          st.store.channels name = some UpdateChannel.AUTOMATOR) := by
  intro op hop
  rcases hlk : doc.lookup name with _ | v
  · cases hs : st.store.isset name
    · simp only [syncStep, hlk, hs, Bool.false_eq_true, if_false, ite_false] at hop
      exact Or.inl hop
    · by_cases hc : st.store.channels name = some UpdateChannel.AUTOMATOR
      · cases dry
        · simp only [syncStep, hlk, hs, hc, Store.last_update_channel_eq, if_true,
            ite_true, ite_false, RunState.echo, RunState.doDelete,
            Bool.false_eq_true, if_false] at hop
          rcases List.mem_append.mp hop with h | h
          · exact Or.inl h
          · exact Or.inr (Or.inr ⟨rfl, by simpa using h, rfl, hc⟩)
        · simp only [syncStep, hlk, hs, hc, Store.last_update_channel_eq, if_true,
            ite_true, RunState.echo] at hop
          exact Or.inl hop
      · simp only [syncStep, hlk, hs, hc, Store.last_update_channel_eq, if_true,
          ite_true, if_neg, ite_false, RunState.echo] at hop
        exact Or.inl hop
  · simp only [syncStep, hlk] at hop
    rcases attempt_update_trace_ops name v d dry st op hop with h | h
    · exact Or.inl h
    · exact Or.inr (Or.inl ⟨v, rfl, h⟩)

theorem syncLoop_trace_ops [DecidableEq V] (names : List Key) (doc : List (Key × V))
    (d : List Key) (dry : Bool) (st : RunState V) (s₀ : Store V)
    (hnd : names.Nodup) (hag : ∀ k ∈ names, AgreesOn st.store s₀ k) :
    ∀ op ∈ (syncLoop names doc d dry st).trace,
      op ∈ st.trace ∨
        (∃ k v, doc.lookup k = some v ∧
          op = StoreOp.setOp k v false UpdateChannel.AUTOMATOR) ∨
        (∃ k, k ∈ names ∧ doc.lookup k = none ∧ op = StoreOp.deleteOp k ∧
          s₀.isset k = true ∧ s₀.channels k = some UpdateChannel.AUTOMATOR) := by
  induction names generalizing st with
  | nil =>
    intro op hop
    exact Or.inl hop
  | cons name rest ih =>
    simp only [List.nodup_cons] at hnd
    intro op hop
    rw [syncLoop_cons] at hop
    have hag2 : ∀ k ∈ rest, AgreesOn (syncStep doc d dry st name).store s₀ k := by
      intro k hk
      have hne : k ≠ name := fun h => hnd.1 (h ▸ hk)
      exact (syncStep_frame _ _ _ _ _ _ hne).trans (hag k (List.mem_cons_of_mem _ hk))
    rcases ih _ hnd.2 hag2 op hop with h | h | ⟨k, hk, hlk, he, hi, hc⟩
    · rcases syncStep_trace_ops doc d dry st name op h with h2 | h2 | ⟨hlk, he, hi, hc⟩
      · exact Or.inl h2
      · rcases h2 with ⟨v, hv, he⟩
        exact Or.inr (Or.inl ⟨name, v, hv, he⟩)
      · have hagn := hag name (List.mem_cons_self _ _)
        exact Or.inr (Or.inr ⟨name, List.mem_cons_self _ _, hlk, he,
          hagn.isset_eq ▸ hi, hagn.2.2 ▸ hc⟩)
    · exact Or.inr (Or.inl h)
    · exact Or.inr (Or.inr ⟨k, List.mem_cons_of_mem _ hk, hlk, he, hi, hc⟩)

theorem computeDrifted_ok {can_update : Key → V → Option NotWritableReason}
    {l : List (Key × V)} {ds : List Key}
    (h : computeDrifted can_update l = .ok ds) :
    ds = (l.filter
        (fun p => can_update p.1 p.2 = some NotWritableReason.DRIFTED)).map Prod.fst := by
  induction l generalizing ds with
  | nil =>
    simp only [computeDrifted, Except.ok.injEq] at h
    simp [h.symm]
  | cons p rest ih =>
    obtain ⟨k, v⟩ := p
    rcases hcu : can_update k v with _ | r
    · simp only [computeDrifted, hcu] at h
      simpa [List.filter_cons, hcu] using ih h
    · by_cases hr : r = NotWritableReason.DRIFTED
      · subst hr
        simp only [computeDrifted, hcu, ne_eq, not_true_eq_false, if_neg,
          ite_false, not_false_eq_true] at h
        cases hrest : computeDrifted can_update rest with
        | error e =>
          rw [hrest] at h
          simp [Except.map] at h
        | ok ds' =>
          rw [hrest] at h
          simp only [Except.map, Except.ok.injEq] at h
          subst h
          simpa [List.filter_cons, hcu] using ih hrest
      · simp [computeDrifted, hcu, hr] at h

theorem computeDrifted_error_mem {can_update : Key → V → Option NotWritableReason}
    {l : List (Key × V)} {k : Key} {r : NotWritableReason}
    (h : computeDrifted can_update l = .error (k, r)) :
    r ≠ NotWritableReason.DRIFTED ∧ ∃ v, (k, v) ∈ l ∧ can_update k v = some r := by
  induction l with
  | nil => simp [computeDrifted] at h
  | cons p rest ih =>
    obtain ⟨k', v'⟩ := p
    rcases hcu : can_update k' v' with _ | r'
    · simp only [computeDrifted, hcu] at h
      obtain ⟨hr, v, hm, hcv⟩ := ih h
      exact ⟨hr, v, List.mem_cons_of_mem _ hm, hcv⟩
    · by_cases hr' : r' = NotWritableReason.DRIFTED
      · subst hr'
        simp only [computeDrifted, hcu, ne_eq, not_true_eq_false, if_neg,
          ite_false, not_false_eq_true] at h
        cases hrest : computeDrifted can_update rest with
        | error e =>
          rw [hrest] at h
          simp only [Except.map, Except.error.injEq] at h
          subst h
          obtain ⟨hr, v, hm, hcv⟩ := ih hrest
          exact ⟨hr, v, List.mem_cons_of_mem _ hm, hcv⟩
        | ok ds' =>
          rw [hrest] at h
          simp [Except.map] at h
      · simp only [computeDrifted, hcu, hr', ne_eq, not_false_eq_true, if_pos,
          ite_true, Except.error.injEq, Prod.mk.injEq] at h
        obtain ⟨hk, hr⟩ := h
        subst hk
        subst hr
        exact ⟨hr', v', List.mem_cons_self _ _, hcu⟩

theorem computeDrifted_error_of_bad {can_update : Key → V → Option NotWritableReason}
    {l : List (Key × V)}
    (hbad : ∃ p ∈ l, ∃ r, can_update p.1 p.2 = some r ∧ r ≠ NotWritableReason.DRIFTED) :
    ∃ k r, computeDrifted can_update l = .error (k, r) := by
  induction l with
  | nil =>
    obtain ⟨p, hp, _⟩ := hbad
    cases hp
  | cons q rest ih =>
    obtain ⟨k', v'⟩ := q
    rcases hcu : can_update k' v' with _ | r'
    · obtain ⟨p, hp, r, hcv, hr⟩ := hbad
      rcases List.mem_cons.mp hp with heq | hmem
      · subst heq
        rw [hcu] at hcv
        cases hcv
      · obtain ⟨k, r₂, hres⟩ := ih ⟨p, hmem, r, hcv, hr⟩
        exact ⟨k, r₂, by simpa [computeDrifted, hcu] using hres⟩
    · by_cases hr' : r' = NotWritableReason.DRIFTED
      · subst hr'
        obtain ⟨p, hp, r, hcv, hr⟩ := hbad
        rcases List.mem_cons.mp hp with heq | hmem
        · subst heq
          rw [hcu] at hcv
          cases hcv
          exact absurd rfl hr
        · obtain ⟨k, r₂, hres⟩ := ih ⟨p, hmem, r, hcv, hr⟩
          refine ⟨k, r₂, ?_⟩
          simp only [computeDrifted, hcu, ne_eq, not_true_eq_false, if_neg,
            ite_false, not_false_eq_true, hres, Except.map]
      · exact ⟨k', r', by simp [computeDrifted, hcu, hr']⟩

/-- C1: for every key in the drift set, `_attempt_update` performs no
store mutation whether or not dry-run is set, and echoes exactly the
drift message for that key, regardless of the relation between the
desired value and the stored current value. -/
theorem c1_drifted_key_skipped [DecidableEq V] (key : Key) (value : V)
    (d : List Key) (dry : Bool) (st : RunState V) (hk : key ∈ d) :
    (attempt_update key value d dry st).store = st.store ∧
      (attempt_update key value d dry st).trace = st.trace ∧
      (attempt_update key value d dry st).output = st.output ++ [DRIFT_MSG key] := by
  rw [attempt_update_drift _ _ _ _ _ hk]
  exact ⟨rfl, rfl, rfl⟩

theorem c1_drifted_key_skipped_witness :
    ("c" : Key) ∈ ["c"] ∧
      ((attempt_update "c" (9 : Nat) ["c"] false (initState sampleStore)).store
          = (initState sampleStore).store ∧
        (attempt_update "c" (9 : Nat) ["c"] false (initState sampleStore)).trace
          = (initState sampleStore).trace ∧
        (attempt_update "c" (9 : Nat) ["c"] false (initState sampleStore)).output
          = (initState sampleStore).output ++ [DRIFT_MSG "c"]) :=
  ⟨by decide, c1_drifted_key_skipped "c" 9 ["c"] false (initState sampleStore) (by decide)⟩

/-- C2: for a key not in the drift set whose stored current value equals
the desired value and whose last-update channel is unset, the reconciler
stamps the automator channel via a store write (unless dry-run) and
echoes the update message even though the value is unchanged. -/
theorem c2_equal_value_unset_channel [DecidableEq V] (key : Key) (value : V)
    (d : List Key) (dry : Bool) (st : RunState V) (hk : key ∉ d)
    (hv : st.store.get key = value)
    (hc : st.store.get_last_update_channel key = none) :
    (attempt_update key value d dry st).output = st.output ++ [UPDATE_MSG key] ∧
      (dry = true → (attempt_update key value d dry st).store = st.store ∧
        (attempt_update key value d dry st).trace = st.trace) ∧
      (dry = false →
        (attempt_update key value d dry st).store =
            st.store.set key value UpdateChannel.AUTOMATOR ∧
          (attempt_update key value d dry st).store.get_last_update_channel key =
            some UpdateChannel.AUTOMATOR ∧
          (attempt_update key value d dry st).trace =
            st.trace ++ [StoreOp.setOp key value false UpdateChannel.AUTOMATOR]) := by
  have hc' : st.store.channels key = none := hc
  refine ⟨?_, ?_, ?_⟩
  · rw [attempt_update_output]
    simp [reconcileMsgs, hk, hv, hc']
  · intro hdry
    subst hdry
    exact ⟨attempt_update_store_dry _ _ _ _, attempt_update_trace_dry _ _ _ _⟩
  · intro hdry
    subst hdry
    rw [attempt_update_eq]
    simp [reconcileWrites, hk, hv, hc', Store.last_update_channel_eq,
      Store.channels_set_self]

theorem c2_equal_value_unset_channel_witness :
    (("a" : Key) ∉ ([] : List Key) ∧ sampleStore.get "a" = 0 ∧
        sampleStore.get_last_update_channel "a" = none) ∧
      ((attempt_update "a" (0 : Nat) [] false (initState sampleStore)).output
          = (initState sampleStore).output ++ [UPDATE_MSG "a"] ∧
        (false = true → (attempt_update "a" (0 : Nat) [] false (initState sampleStore)).store
            = (initState sampleStore).store ∧
          (attempt_update "a" (0 : Nat) [] false (initState sampleStore)).trace
            = (initState sampleStore).trace) ∧
        (false = false →
          (attempt_update "a" (0 : Nat) [] false (initState sampleStore)).store =
              (initState sampleStore).store.set "a" 0 UpdateChannel.AUTOMATOR ∧
            (attempt_update "a" (0 : Nat) [] false
                (initState sampleStore)).store.get_last_update_channel "a" =
              some UpdateChannel.AUTOMATOR ∧
            (attempt_update "a" (0 : Nat) [] false (initState sampleStore)).trace =
              (initState sampleStore).trace ++
                [StoreOp.setOp "a" 0 false UpdateChannel.AUTOMATOR])) :=
  ⟨⟨by decide, by decide, by decide⟩,
    c2_equal_value_unset_channel "a" 0 [] false (initState sampleStore)
      (by decide) (by decide) (by decide)⟩

/-- C3: for a key not in the drift set whose stored current value equals
the desired value and whose last-update channel is set but is not the
automator channel, the reconciler performs a channel-only update (the
stored value is unchanged, the channel is stamped to the automator
channel unless dry-run) and echoes the channel-update message. -/
theorem c3_equal_value_foreign_channel [DecidableEq V] (key : Key) (value : V)
    (d : List Key) (dry : Bool) (st : RunState V) (c : UpdateChannel) (hk : key ∉ d)
    (hv : st.store.get key = value)
    (hc : st.store.get_last_update_channel key = some c)
    (hne : c ≠ UpdateChannel.AUTOMATOR) :
    (attempt_update key value d dry st).output =
        st.output ++ [CHANNEL_UPDATE_MSG key] ∧
      (attempt_update key value d dry st).store.get key = st.store.get key ∧
      (dry = true → (attempt_update key value d dry st).store = st.store ∧
        (attempt_update key value d dry st).trace = st.trace) ∧
      (dry = false →
        (attempt_update key value d dry st).store =
            st.store.set key value UpdateChannel.AUTOMATOR ∧
          (attempt_update key value d dry st).store.get_last_update_channel key =
            some UpdateChannel.AUTOMATOR ∧
          (attempt_update key value d dry st).trace =
            st.trace ++ [StoreOp.setOp key value false UpdateChannel.AUTOMATOR]) := by
  have hc' : st.store.channels key = some c := hc
  refine ⟨?_, ?_, ?_, ?_⟩
  · rw [attempt_update_output]
    simp [reconcileMsgs, hk, hv, hc', hne]
  · rw [attempt_update_eq]
    dsimp only
    split
    · rw [Store.get_set_self, hv]
    · rfl
  · intro hdry
    subst hdry
    exact ⟨attempt_update_store_dry _ _ _ _, attempt_update_trace_dry _ _ _ _⟩
  · intro hdry
    subst hdry
    rw [attempt_update_eq]
    simp [reconcileWrites, hk, hv, hc', hne, Store.last_update_channel_eq,
      Store.channels_set_self]

theorem c3_equal_value_foreign_channel_witness :
    (("c" : Key) ∉ ([] : List Key) ∧ sampleStore.get "c" = 5 ∧
        sampleStore.get_last_update_channel "c" = some UpdateChannel.CLI ∧
        UpdateChannel.CLI ≠ UpdateChannel.AUTOMATOR) ∧
      ((attempt_update "c" (5 : Nat) [] false (initState sampleStore)).output
          = (initState sampleStore).output ++ [CHANNEL_UPDATE_MSG "c"] ∧
        (attempt_update "c" (5 : Nat) [] false (initState sampleStore)).store.get "c"
          = (initState sampleStore).store.get "c" ∧
        (false = true → (attempt_update "c" (5 : Nat) [] false (initState sampleStore)).store
            = (initState sampleStore).store ∧
          (attempt_update "c" (5 : Nat) [] false (initState sampleStore)).trace
            = (initState sampleStore).trace) ∧
        (false = false →
          (attempt_update "c" (5 : Nat) [] false (initState sampleStore)).store =
              (initState sampleStore).store.set "c" 5 UpdateChannel.AUTOMATOR ∧
            (attempt_update "c" (5 : Nat) [] false
                (initState sampleStore)).store.get_last_update_channel "c" =
              some UpdateChannel.AUTOMATOR ∧
            (attempt_update "c" (5 : Nat) [] false (initState sampleStore)).trace =
              (initState sampleStore).trace ++
                [StoreOp.setOp "c" 5 false UpdateChannel.AUTOMATOR])) :=
  ⟨⟨by decide, by decide, by decide, by decide⟩,
    c3_equal_value_foreign_channel "c" 5 [] false (initState sampleStore)
      UpdateChannel.CLI (by decide) (by decide) (by decide) (by decide)⟩

/-- C4: for a key not in the drift set whose stored current value
differs from the desired value, the reconciler writes the desired value
with the automator channel (unless dry-run) and echoes the update
message. -/
theorem c4_differing_value_updated [DecidableEq V] (key : Key) (value : V)
    (d : List Key) (dry : Bool) (st : RunState V) (hk : key ∉ d)
    (hv : st.store.get key ≠ value) :
    (attempt_update key value d dry st).output = st.output ++ [UPDATE_MSG key] ∧
      (dry = true → (attempt_update key value d dry st).store = st.store ∧
        (attempt_update key value d dry st).trace = st.trace) ∧
      (dry = false →
        (attempt_update key value d dry st).store =
            st.store.set key value UpdateChannel.AUTOMATOR ∧
          (attempt_update key value d dry st).store.get key = value ∧
          (attempt_update key value d dry st).store.get_last_update_channel key =
            some UpdateChannel.AUTOMATOR ∧
          (attempt_update key value d dry st).trace =
            st.trace ++ [StoreOp.setOp key value false UpdateChannel.AUTOMATOR]) := by
  refine ⟨?_, ?_, ?_⟩
  · rw [attempt_update_output]
    simp [reconcileMsgs, hk, hv]
  · intro hdry
    subst hdry
    exact ⟨attempt_update_store_dry _ _ _ _, attempt_update_trace_dry _ _ _ _⟩
  · intro hdry
    subst hdry
    rw [attempt_update_eq]
    simp [reconcileWrites, hk, hv, Store.last_update_channel_eq,
      Store.channels_set_self, Store.get_set_self]

theorem c4_differing_value_updated_witness :
    (("b" : Key) ∉ ([] : List Key) ∧ sampleStore.get "b" ≠ 7) ∧
      ((attempt_update "b" (7 : Nat) [] false (initState sampleStore)).output
          = (initState sampleStore).output ++ [UPDATE_MSG "b"] ∧
        (false = true → (attempt_update "b" (7 : Nat) [] false (initState sampleStore)).store
            = (initState sampleStore).store ∧
          (attempt_update "b" (7 : Nat) [] false (initState sampleStore)).trace
            = (initState sampleStore).trace) ∧
        (false = false →
          (attempt_update "b" (7 : Nat) [] false (initState sampleStore)).store =
              (initState sampleStore).store.set "b" 7 UpdateChannel.AUTOMATOR ∧
            (attempt_update "b" (7 : Nat) [] false
                (initState sampleStore)).store.get "b" = 7 ∧
            (attempt_update "b" (7 : Nat) [] false
                (initState sampleStore)).store.get_last_update_channel "b" =
              some UpdateChannel.AUTOMATOR ∧
            (attempt_update "b" (7 : Nat) [] false (initState sampleStore)).trace =
              (initState sampleStore).trace ++
                [StoreOp.setOp "b" 7 false UpdateChannel.AUTOMATOR])) :=
  ⟨⟨by decide, by decide⟩,
    c4_differing_value_updated "b" 7 [] false (initState sampleStore)
      (by decide) (by decide)⟩

/-- C5: both workflows are idempotent.  (a) For a key not drifted,
already holding the desired value under the automator channel, the
reconciler produces no output and no write (it is the identity on the
run state).  (b) Running `patch` a second time over the store produced
by a first real run performs no store mutation.  (c) Running `sync` a
second time over the store produced by a first real run deletes nothing
further and performs no writes. -/
theorem c5_idempotence [DecidableEq V] :
    (∀ (key : Key) (value : V) (d : List Key) (dry : Bool) (st : RunState V),
      key ∉ d → st.store.get key = value →
      st.store.get_last_update_channel key = some UpdateChannel.AUTOMATOR →
      attempt_update key value d dry st = st) ∧
    (∀ (doc : List (Key × V)) (d : List Key) (s : Store V),
      (doc.map Prod.fst).Nodup →
      (patchCmd doc d false
          (initState (patchCmd doc d false (initState s)).store)).trace = [] ∧
      (patchCmd doc d false
          (initState (patchCmd doc d false (initState s)).store)).store =
        (patchCmd doc d false (initState s)).store) ∧
    (∀ (names : List Key) (doc : List (Key × V)) (d : List Key) (s : Store V),
      names.Nodup →
      (syncCmd names doc d false
          (initState (syncCmd names doc d false (initState s)).store)).trace = [] ∧
      (syncCmd names doc d false
          (initState (syncCmd names doc d false (initState s)).store)).store =
        (syncCmd names doc d false (initState s)).store) := by
  refine ⟨?_, ?_, ?_⟩
  · intro key value d dry st hk hv hc
    exact attempt_update_noop key value d dry st hk hv hc
  · intro doc d s hnd
    have hpost := patchLoop_post doc d (initState s) hnd
    have hnoop := patchLoop_noop doc d false
      (initState (patchLoop doc d false (initState s)).store) hpost
    exact ⟨hnoop.2, hnoop.1⟩
  · intro names doc d s hnd
    have hpost := syncLoop_post names doc d (initState s) hnd
    have hnoop := syncLoop_noop names doc d false
      (initState (syncLoop names doc d false (initState s)).store) hpost
    exact ⟨hnoop.2, hnoop.1⟩

theorem c5_idempotence_witness :
    (("b" : Key) ∉ ([] : List Key) ∧ sampleStore.get "b" = 2 ∧
        sampleStore.get_last_update_channel "b" = some UpdateChannel.AUTOMATOR ∧
        (List.map Prod.fst [("a", (1 : Nat)), ("b", 2)]).Nodup ∧
        (["a", "b", "c"] : List Key).Nodup) ∧
      attempt_update "b" (2 : Nat) [] false (initState sampleStore)
          = initState sampleStore ∧
      (patchCmd [("a", (1 : Nat)), ("b", 2)] [] false
          (initState (patchCmd [("a", (1 : Nat)), ("b", 2)] [] false
            (initState sampleStore)).store)).trace = [] ∧
      (syncCmd ["a", "b", "c"] [("a", (1 : Nat)), ("b", 2)] [] false
          (initState (syncCmd ["a", "b", "c"] [("a", (1 : Nat)), ("b", 2)] [] false
            (initState sampleStore)).store)).trace = [] :=
  ⟨⟨by decide, by decide, by decide, by decide, by decide⟩,
    (c5_idempotence (V := Nat)).1 "b" 2 [] false (initState sampleStore)
      (by decide) (by decide) (by decide),
    ((c5_idempotence (V := Nat)).2.1 [("a", 1), ("b", 2)] [] sampleStore (by decide)).1,
    ((c5_idempotence (V := Nat)).2.2 ["a", "b", "c"] [("a", 1), ("b", 2)] []
      sampleStore (by decide)).1⟩

/-- C6: in the `sync` loop, for an automator-eligible key absent from
the input document: if it is set and attributed to the automator channel
it is deleted (unless dry-run) and the unset message is echoed; if it is
set under another attribution it is left unmodified and the drift
message is echoed; if it is unset nothing happens and nothing is
echoed. -/
theorem c6_sync_absent_key [DecidableEq V] (options_to_update : List (Key × V))
    (d : List Key) (dry : Bool) (st : RunState V) (name : Key)
    (hlk : options_to_update.lookup name = none) :
    (st.store.isset name = true →
      st.store.get_last_update_channel name = some UpdateChannel.AUTOMATOR →
      (syncStep options_to_update d dry st name).output =
          st.output ++ [UNSET_MSG name] ∧
        (dry = true → (syncStep options_to_update d dry st name).store = st.store ∧
          (syncStep options_to_update d dry st name).trace = st.trace) ∧
        (dry = false →
          (syncStep options_to_update d dry st name).store = st.store.delete name ∧
            (syncStep options_to_update d dry st name).store.isset name = false ∧
            (syncStep options_to_update d dry st name).trace =
              st.trace ++ [StoreOp.deleteOp name])) ∧
    (st.store.isset name = true →
      st.store.get_last_update_channel name ≠ some UpdateChannel.AUTOMATOR →
      syncStep options_to_update d dry st name = st.echo (DRIFT_MSG name)) ∧
    (st.store.isset name = false → syncStep options_to_update d dry st name = st) := by
  refine ⟨?_, ?_, ?_⟩
  · intro hs hc
    refine ⟨?_, ?_, ?_⟩
    · cases dry <;>
        simp [syncStep, hlk, hs, hc, RunState.echo, RunState.doDelete]
    · intro hdry
      subst hdry
      simp [syncStep, hlk, hs, hc, RunState.echo]
    · intro hdry
      subst hdry
      simp [syncStep, hlk, hs, hc, RunState.echo, RunState.doDelete,
        Store.isset_delete_self]
  · intro hs hc
    simp [syncStep, hlk, hs, hc]
  · intro hs
    simp [syncStep, hlk, hs]

theorem c6_sync_absent_key_witness :
    (List.lookup ("c" : Key) [("a", (1 : Nat))] = none ∧
        sampleStore.isset "c" = true ∧
        sampleStore.get_last_update_channel "c" ≠ some UpdateChannel.AUTOMATOR ∧
        sampleStore.isset "x" = false) ∧
      syncStep [("a", (1 : Nat))] [] false (initState sampleStore) "c"
          = (initState sampleStore).echo (DRIFT_MSG "c") ∧
      syncStep [("a", (1 : Nat))] [] false (initState sampleStore) "x"
          = initState sampleStore :=
  ⟨⟨by decide, by decide, by decide, by decide⟩,
    (c6_sync_absent_key [("a", (1 : Nat))] [] false (initState sampleStore) "c"
        (by decide)).2.1 (by decide) (by decide),
    (c6_sync_absent_key [("a", (1 : Nat))] [] false (initState sampleStore) "x"
        (by decide)).2.2 (by decide)⟩

/-- C8: a dry run emits the dry-run banner followed by exactly the
per-key messages of the corresponding real run, and performs no store
mutation: the store after the dry run equals the store before it and
its mutation trace is empty.  This holds for both `patch` and `sync`. -/
theorem c8_dry_run_equivalence [DecidableEq V] (doc : List (Key × V))
    (d names : List Key) (s : Store V)
    (hnd : (doc.map Prod.fst).Nodup) (hnda : names.Nodup) :
    (patchCmd doc d true (initState s)).store = s ∧
      (patchCmd doc d true (initState s)).trace = [] ∧
      (patchCmd doc d true (initState s)).output =
        DRY_RUN_BANNER :: (patchCmd doc d false (initState s)).output ∧
      (syncCmd names doc d true (initState s)).store = s ∧
      (syncCmd names doc d true (initState s)).trace = [] ∧
      (syncCmd names doc d true (initState s)).output =
        DRY_RUN_BANNER :: (syncCmd names doc d false (initState s)).output := by
  have hbanner : (initState s).echo DRY_RUN_BANNER =
      { initState s with output := [DRY_RUN_BANNER] ++ (initState s).output } := rfl
  refine ⟨?_, ?_, ?_, ?_, ?_, ?_⟩
  · exact patchLoop_store_dry doc d _
  · exact patchLoop_trace_dry doc d _
  · show (patchLoop doc d true ((initState s).echo DRY_RUN_BANNER)).output = _
    rw [hbanner, patchLoop_output_extend]
    have hcongr := patchLoop_output_congr doc d true false (initState s) (initState s)
      hnd (fun p _ => AgreesOn.refl _ _) rfl
    rw [hcongr]
    rfl
  · exact syncLoop_store_dry names doc d _
  · exact syncLoop_trace_dry names doc d _
  · show (syncLoop names doc d true ((initState s).echo DRY_RUN_BANNER)).output = _
    rw [hbanner, syncLoop_output_extend]
    have hcongr := syncLoop_output_congr names doc d true false (initState s) (initState s)
      hnda (fun k _ => AgreesOn.refl _ _) rfl
    rw [hcongr]
    rfl

theorem c8_dry_run_equivalence_witness :
    ((List.map Prod.fst [("a", (1 : Nat)), ("b", 2), ("c", 3)]).Nodup ∧
        (["a", "b", "c", "x"] : List Key).Nodup) ∧
      ((patchCmd [("a", (1 : Nat)), ("b", 2), ("c", 3)] ["c"] true
          (initState sampleStore)).store = sampleStore ∧
        (patchCmd [("a", (1 : Nat)), ("b", 2), ("c", 3)] ["c"] true
          (initState sampleStore)).trace = [] ∧
        (patchCmd [("a", (1 : Nat)), ("b", 2), ("c", 3)] ["c"] true
            (initState sampleStore)).output =
          DRY_RUN_BANNER :: (patchCmd [("a", (1 : Nat)), ("b", 2), ("c", 3)] ["c"] false
            (initState sampleStore)).output ∧
        (syncCmd ["a", "b", "c", "x"] [("a", (1 : Nat)), ("b", 2), ("c", 3)] ["c"] true
          (initState sampleStore)).store = sampleStore ∧
        (syncCmd ["a", "b", "c", "x"] [("a", (1 : Nat)), ("b", 2), ("c", 3)] ["c"] true
          (initState sampleStore)).trace = [] ∧
        (syncCmd ["a", "b", "c", "x"] [("a", (1 : Nat)), ("b", 2), ("c", 3)] ["c"] true
            (initState sampleStore)).output =
          DRY_RUN_BANNER :: (syncCmd ["a", "b", "c", "x"]
            [("a", (1 : Nat)), ("b", 2), ("c", 3)] ["c"] false
            (initState sampleStore)).output) :=
  ⟨⟨by decide, by decide⟩,
    c8_dry_run_equivalence [("a", 1), ("b", 2), ("c", 3)] ["c"] ["a", "b", "c", "x"]
      sampleStore (by decide) (by decide)⟩

/-- C9: the `patch` workflow never deletes an option: every mutation in
its trace is an `options.set(k, v, coerce=False, channel=AUTOMATOR)` for
an entry `(k, v)` of the input document, and `options.delete` is never
invoked. -/
theorem c9_patch_never_deletes [DecidableEq V] (doc : List (Key × V))
    (d : List Key) (dry : Bool) (s : Store V) :
    (∀ op ∈ (patchCmd doc d dry (initState s)).trace,
      ∃ k v, (k, v) ∈ doc ∧ op = StoreOp.setOp k v false UpdateChannel.AUTOMATOR) ∧
      (∀ k, StoreOp.deleteOp k ∉ (patchCmd doc d dry (initState s)).trace) := by
  have hbase : (if dry then (initState s).echo DRY_RUN_BANNER else initState s).trace
      = [] := by
    cases dry <;> rfl
  have hmain : ∀ op ∈ (patchCmd doc d dry (initState s)).trace,
      ∃ k v, (k, v) ∈ doc ∧ op = StoreOp.setOp k v false UpdateChannel.AUTOMATOR := by
    intro op hop
    rcases patchLoop_trace_ops doc d dry
        (if dry then (initState s).echo DRY_RUN_BANNER else initState s) op hop with
      h | h
    · rw [hbase] at h
      cases h
    · exact h
  refine ⟨hmain, ?_⟩
  intro k hdel
  obtain ⟨k', v', _, he⟩ := hmain _ hdel
  cases he

theorem c9_patch_never_deletes_witness :
    (StoreOp.setOp "b" 7 false UpdateChannel.AUTOMATOR ∈
        (patchCmd [("b", (7 : Nat))] [] false (initState sampleStore)).trace) ∧
      (∃ k v, (k, v) ∈ [("b", (7 : Nat))] ∧
        StoreOp.setOp "b" 7 false UpdateChannel.AUTOMATOR
          = StoreOp.setOp k v false UpdateChannel.AUTOMATOR) ∧
      StoreOp.deleteOp "b" ∉
        (patchCmd [("b", (7 : Nat))] [] false (initState sampleStore)).trace :=
  ⟨by decide,
    (c9_patch_never_deletes [("b", (7 : Nat))] [] false sampleStore).1
      (StoreOp.setOp "b" 7 false UpdateChannel.AUTOMATOR) (by decide),
    (c9_patch_never_deletes [("b", (7 : Nat))] [] false sampleStore).2 "b"⟩

/-- C10: every store mutation performed by either workflow stamps the
automator channel: each write is `options.set(k, v, coerce=False,
channel=AUTOMATOR)` for a key `k` bound to `v` in the input document,
and the only other mutation is the `options.delete` performed by `sync`
for an eligible key absent from the input document whose value was set
and attributed to the automator channel. -/
theorem c10_mutations_stamp_automator [DecidableEq V] (doc : List (Key × V))
    (d names : List Key) (dry : Bool) (s : Store V) (hnd : names.Nodup) :
    (∀ op ∈ (patchCmd doc d dry (initState s)).trace,
      ∃ k v, (k, v) ∈ doc ∧ op = StoreOp.setOp k v false UpdateChannel.AUTOMATOR) ∧
      (∀ op ∈ (syncCmd names doc d dry (initState s)).trace,
        (∃ k v, doc.lookup k = some v ∧
          op = StoreOp.setOp k v false UpdateChannel.AUTOMATOR) ∨
        (∃ k, k ∈ names ∧ doc.lookup k = none ∧ op = StoreOp.deleteOp k ∧
          s.isset k = true ∧ s.channels k = some UpdateChannel.AUTOMATOR)) := by
  constructor
  · intro op hop
    have hbase : (if dry then (initState s).echo DRY_RUN_BANNER else initState s).trace
        = [] := by
      cases dry <;> rfl
    rcases patchLoop_trace_ops doc d dry
        (if dry then (initState s).echo DRY_RUN_BANNER else initState s) op hop with
      h | h
    · rw [hbase] at h
      cases h
    · exact h
  · intro op hop
    have hbase : (if dry then (initState s).echo DRY_RUN_BANNER else initState s).trace
        = [] := by
      cases dry <;> rfl
    have hag : ∀ k ∈ names,
        AgreesOn (if dry then (initState s).echo DRY_RUN_BANNER
          else initState s).store s k := by
      intro k _
      cases dry <;> exact AgreesOn.refl _ _
    rcases syncLoop_trace_ops names doc d dry
        (if dry then (initState s).echo DRY_RUN_BANNER else initState s) s hnd hag
        op hop with h | h | h
    · rw [hbase] at h
      cases h
    · exact Or.inl h
    · exact Or.inr h

theorem c10_mutations_stamp_automator_witness :
    (["a", "b", "c"] : List Key).Nodup ∧
      (StoreOp.deleteOp "b" ∈
        (syncCmd ["a", "b", "c"] ([] : List (Key × Nat)) [] false
          (initState sampleStore)).trace) ∧
      ((∃ k v, List.lookup k ([] : List (Key × Nat)) = some v ∧
          StoreOp.deleteOp "b" = StoreOp.setOp k v false UpdateChannel.AUTOMATOR) ∨
        (∃ k, k ∈ (["a", "b", "c"] : List Key) ∧
          List.lookup k ([] : List (Key × Nat)) = none ∧
          (StoreOp.deleteOp "b" : StoreOp Nat) = StoreOp.deleteOp k ∧
          sampleStore.isset k = true ∧
          sampleStore.channels k = some UpdateChannel.AUTOMATOR)) :=
  ⟨by decide, by decide,
    (c10_mutations_stamp_automator ([] : List (Key × Nat)) [] ["a", "b", "c"] false
        sampleStore (by decide)).2 (StoreOp.deleteOp "b") (by decide)⟩

/-- C7: startup validation is all-or-nothing and precedes any mutation.
If a path segment is missing from the input document, or if some input
key's `can_update` denial reason is anything other than drifted, the
invocation exits with code `-1` having performed no store mutation.
When every key is accepted or merely drifted, the drift set is exactly
the drift-denied keys and the run continues into the subcommand. -/
theorem c7_startup_validation (can_update : Key → Yaml → Option NotWritableReason)
    (names : List Key) (doc : Yaml) (path : String) (dry : Bool) (sub : Subcommand)
    (s : Store Yaml) :
    (∀ key cur,
      walkPath doc (splitSlash path ++ ["options"]) "" = .missing key cur →
      (configoptionsRun can_update names doc path dry sub (initState s)).exitCode
          = some (-1) ∧
        (configoptionsRun can_update names doc path dry sub
          (initState s)).finalState.store = s ∧
        (configoptionsRun can_update names doc path dry sub
          (initState s)).finalState.trace = []) ∧
    (∀ entries,
      walkPath doc (splitSlash path ++ ["options"]) "" = .ok (.obj entries) →
      (∃ p ∈ entries.toList, ∃ r, can_update p.1 p.2 = some r ∧
        r ≠ NotWritableReason.DRIFTED) →
      (configoptionsRun can_update names doc path dry sub (initState s)).exitCode
          = some (-1) ∧
        (configoptionsRun can_update names doc path dry sub
          (initState s)).finalState.store = s ∧
        (configoptionsRun can_update names doc path dry sub
          (initState s)).finalState.trace = []) ∧
    (∀ entries ds,
      walkPath doc (splitSlash path ++ ["options"]) "" = .ok (.obj entries) →
      computeDrifted can_update entries.toList = .ok ds →
      ds = (entries.toList.filter
          (fun p => can_update p.1 p.2 = some NotWritableReason.DRIFTED)).map
            Prod.fst ∧
        configoptionsRun can_update names doc path dry Subcommand.patch (initState s)
          = .done (patchCmd entries.toList ds dry (initState s)) ∧
        configoptionsRun can_update names doc path dry Subcommand.sync (initState s)
          = .done (syncCmd names entries.toList ds dry (initState s))) := by
  refine ⟨?_, ?_, ?_⟩
  · intro key cur hw
    simp only [configoptionsRun, hw]
    exact ⟨rfl, rfl, rfl⟩
  · intro entries hw hbad
    obtain ⟨k, r, herr⟩ := computeDrifted_error_of_bad hbad
    simp only [configoptionsRun, hw, herr]
    exact ⟨rfl, rfl, rfl⟩
  · intro entries ds hw hdr
    refine ⟨computeDrifted_ok hdr, ?_, ?_⟩ <;> simp only [configoptionsRun, hw, hdr]

theorem c7_startup_validation_witness :
    (walkPath sampleYaml (splitSlash "bad" ++ ["options"]) "" = .missing "bad" "" ∧
        walkPath sampleYamlBad (splitSlash "" ++ ["options"]) ""
          = .ok (.obj sampleFieldsBad) ∧
        (∃ p ∈ sampleFieldsBad.toList, ∃ r, sampleCanUpdate p.1 p.2 = some r ∧
          r ≠ NotWritableReason.DRIFTED) ∧
        walkPath sampleYaml (splitSlash "" ++ ["options"]) ""
          = .ok (.obj sampleFields) ∧
        computeDrifted sampleCanUpdate sampleFields.toList = .ok ["dr"]) ∧
      ((configoptionsRun sampleCanUpdate [] sampleYaml "bad" false Subcommand.patch
          (initState sampleYamlStore)).exitCode = some (-1) ∧
        (configoptionsRun sampleCanUpdate [] sampleYaml "bad" false Subcommand.patch
          (initState sampleYamlStore)).finalState.store = sampleYamlStore ∧
        (configoptionsRun sampleCanUpdate [] sampleYaml "bad" false Subcommand.patch
          (initState sampleYamlStore)).finalState.trace = []) ∧
      ((configoptionsRun sampleCanUpdate [] sampleYamlBad "" false Subcommand.patch
          (initState sampleYamlStore)).exitCode = some (-1) ∧
        (configoptionsRun sampleCanUpdate [] sampleYamlBad "" false Subcommand.patch
          (initState sampleYamlStore)).finalState.store = sampleYamlStore ∧
        (configoptionsRun sampleCanUpdate [] sampleYamlBad "" false Subcommand.patch
          (initState sampleYamlStore)).finalState.trace = []) ∧
      (["dr"] = (sampleFields.toList.filter
          (fun p => sampleCanUpdate p.1 p.2 = some NotWritableReason.DRIFTED)).map
            Prod.fst ∧
        configoptionsRun sampleCanUpdate [] sampleYaml "" false Subcommand.patch
            (initState sampleYamlStore)
          = .done (patchCmd sampleFields.toList ["dr"] false
              (initState sampleYamlStore)) ∧
        configoptionsRun sampleCanUpdate [] sampleYaml "" false Subcommand.sync
            (initState sampleYamlStore)
          = .done (syncCmd [] sampleFields.toList ["dr"] false
              (initState sampleYamlStore))) :=
  ⟨⟨rfl, rfl,
      ⟨("r", .int 1), by decide, NotWritableReason.READONLY, by decide, by decide⟩,
      rfl, rfl⟩,
    (c7_startup_validation sampleCanUpdate [] sampleYaml "bad" false Subcommand.patch
        sampleYamlStore).1 "bad" "" rfl,
    (c7_startup_validation sampleCanUpdate [] sampleYamlBad "" false Subcommand.patch
        sampleYamlStore).2.1 sampleFieldsBad rfl
      ⟨("r", .int 1), by decide, NotWritableReason.READONLY, by decide, by decide⟩,
    (c7_startup_validation sampleCanUpdate [] sampleYaml "" false Subcommand.patch
        sampleYamlStore).2.2 sampleFields ["dr"] rfl rfl⟩
